import Mathlib

/-!
Shallow embedding of the search/retrieval core of the repository:
`app/services/embeddings.py` (chunking, embedding generation, chunk storage)
and `app/services/vector_search.py` (semantic / keyword / combined search,
search-history logging).

Modelling conventions:
* Python `str` values are `List Char`; Python `int` is `Int`; float scores
  (cosine similarities, rank scores, weights) are `ℚ`.
* The embedding backend and the SQL engine are external collaborators: they
  are passed in as functions / row lists, and the Lean definitions reproduce
  the Python-side processing of their answers.
* The `while` loop of `chunk_text` is not structurally terminating (and in
  fact diverges on some inputs), so it is modelled with explicit fuel; `none`
  means the fuel ran out.
-/

namespace Ceo

/-- Python slice index resolution for a sequence of length `n`: a negative
index counts from the end, and the result is clamped into `[0, n]`. -/
def pyIdx (n : Nat) (i : Int) : Nat :=
  if i < 0 then ((n : Int) + i).toNat else min i.toNat n

/-- Python `s[a:b]` on a `List Char`. -/
def pySlice (s : List Char) (a b : Int) : List Char :=
  (s.take (pyIdx s.length b)).drop (pyIdx s.length a)

/-- Python `str.strip()`: drop leading and trailing whitespace. -/
def pyStrip (s : List Char) : List Char :=
  ((s.dropWhile Char.isWhitespace).reverse.dropWhile Char.isWhitespace).reverse

/-- Helper for `pyRfind`: the rightmost position (counted from offset `i`)
at which the non-empty pattern `d` occurs in the remaining text. -/
def rfindGo (d : List Char) : List Char → Nat → Int
  | [], _ => -1
  | c :: t, i =>
    let rest := rfindGo d t (i + 1)
    if rest ≥ 0 then rest
    else if d.isPrefixOf (c :: t) then (i : Int) else -1

/-- Python `w.rfind(d)` for a non-empty pattern `d`: the highest index at
which `d` occurs as a substring of `w`, and `-1` when it does not occur. -/
def pyRfind (w d : List Char) : Int :=
  rfindGo d w 0

/-- The sentence-boundary delimiters of `chunk_text`, in priority order:
`'. '`, `'! '`, `'? '`, `'\n\n'`, `'\n'`. -/
def delims : List (List Char) :=
  [['.', ' '], ['!', ' '], ['?', ' '], ['\n', '\n'], ['\n']]

/-- The delimiter scan of `chunk_text`: the first delimiter (in priority
order) whose rightmost occurrence in the window lies strictly past half of
`chunk_size` yields the snapped window length `last_delimiter +
len(delimiter)`.  The Python test `last_delimiter > chunk_size * 0.5`
compares an int against an exact binary float, which is equivalent to
`2 * last_delimiter > chunk_size` over the integers. -/
def findBreak (window : List Char) (cs : Int) : Option Int :=
  match delims.find? (fun d => decide (2 * pyRfind window d > cs)) with
  | some d => some (pyRfind window d + d.length)
  | none => none

/-- One chunk produced by `chunk_text`: the tuple
`(chunk_text, start_char, end_char)`. -/
structure Chunk where
  text : List Char
  startChar : Int
  endChar : Int
deriving DecidableEq

/-- One iteration of the `while` loop body of `chunk_text` (entered with
`start < len(text)`): computes the possibly-snapped window end, emits the
stripped chunk when non-empty, and advances `start`, forcing `start = end`
only when the emitted-chunk list is non-empty and `end - overlap` does not
pass the last chunk's start (the Python guard
`if start <= chunks[-1][1] if chunks else 0` parses as
`(start <= chunks[-1][1]) if chunks else 0`, so an empty chunk list makes
the condition falsy and no forced advance happens). -/
def chunkStep (tx : List Char) (cs ov : Int) (start : Int) (chunks : List Chunk) :
    Int × List Chunk :=
  let end0 := start + cs
  let e :=
    if end0 < (tx.length : Int) then
      match findBreak (pySlice tx start end0) cs with
      | some off => start + off
      | none => end0
    else end0
  let c := pyStrip (pySlice tx start e)
  let chunks' := if c = [] then chunks else chunks ++ [⟨c, start, min e (tx.length : Int)⟩]
  let s1 := e - ov
  let s2 :=
    match chunks'.getLast? with
    | some last => if s1 ≤ last.startChar then e else s1
    | none => s1
  (s2, chunks')

/-- The fuelled `while start < len(text)` loop of `chunk_text`. -/
def chunkLoop (tx : List Char) (cs ov : Int) : Nat → Int → List Chunk → Option (List Chunk)
  | 0, _, _ => none
  | fuel + 1, start, chunks =>
    if start < (tx.length : Int) then
      let p := chunkStep tx cs ov start chunks
      chunkLoop tx cs ov fuel p.1 p.2
    else some chunks

/-- Python `arg or default` for the optional int parameters of `chunk_text`:
`None` and `0` are falsy and select the default. -/
def pyOr (o : Option Int) (d : Int) : Int :=
  match o with
  | none => d
  | some v => if v = 0 then d else v

/-- `EmbeddingService.chunk_text`, with the configured defaults
`settings.chunk_size = 1000` and `settings.chunk_overlap = 200`.  An empty
text yields `[]`; a text no longer than the chunk size yields the single
un-stripped chunk `(text, 0, len(text))`; otherwise the windowed loop runs
(with explicit fuel). -/
def chunk_text (fuel : Nat) (tx : List Char) (chunkSize overlap : Option Int) :
    Option (List Chunk) :=
  let cs := pyOr chunkSize 1000
  let ov := pyOr overlap 200
  if tx = [] ∨ (tx.length : Int) ≤ cs then
    if tx = [] then some [] else some [⟨tx, 0, (tx.length : Int)⟩]
  else chunkLoop tx cs ov fuel 0 []

/-- A whitespace-only text longer than the chunk size: 20 spaces. -/
def wsText : List Char := List.replicate 20 ' '

/-- 2500 characters of delimiter-free, whitespace-free prose. -/
def prose2500 : List Char := List.replicate 2500 'a'

/-- The text `" a "`: non-empty, shorter than the chunk size, and carrying
leading/trailing whitespace. -/
def spacePadded : List Char := [' ', 'a', ' ']

/-! ### Embedding generation (`embeddings.py`) -/

/-- The `EmbeddingError` exception. -/
structure EmbeddingError where
  msg : String
deriving DecidableEq

/-- `EmbeddingService.generate_embedding`: empty or whitespace-only text is
rejected with `EmbeddingError` before the backend is consulted; otherwise the
text is truncated to 8000 characters and sent to the backend, whose failures
are re-raised as `EmbeddingError`. -/
def generate_embedding (backend : List Char → Except String (List ℚ))
    (text : List Char) : Except EmbeddingError (List ℚ) :=
  if text = [] ∨ pyStrip text = [] then .error ⟨"Cannot embed empty text"⟩
  else
    match backend (text.take 8000) with
    | .ok v => .ok v
    | .error e => .error ⟨"Failed to generate embedding: " ++ e⟩

/-- `EmbeddingService.generate_embeddings_batch`: texts that are empty or
whitespace-only are filtered out, the rest are truncated to 8000 characters;
the batch backend answers with `(input index, vector)` pairs in arbitrary
order, which are re-sorted by index before the vectors are returned.  (The
backend is modelled as always answering; single-text failure propagation is
covered by `generate_embedding`.) -/
def generate_embeddings_batch (backend : List (List Char) → List (Nat × List ℚ))
    (texts : List (List Char)) : List (List ℚ) :=
  if texts = [] then []
  else
    let processed := (texts.filter (fun t => !t.isEmpty && !(pyStrip t).isEmpty)).map
      (fun t => t.take 8000)
    if processed = [] then []
    else ((backend processed).insertionSort (fun a b => a.1 ≤ b.1)).map Prod.snd

/-- A batch backend that answers every input with the vector `[1]`, tagged
with its input index (in order). -/
def unitBackend : List (List Char) → List (Nat × List ℚ) :=
  fun ts => ts.enum.map (fun p => (p.1, [(1 : ℚ)]))

/-! ### Chunk storage (`embed_transcript`) -/

/-- A persisted `TranscriptChunk` row. -/
structure StoredChunk where
  transcriptId : Nat
  chunkIndex : Nat
  chunkText : List Char
  startChar : Int
  endChar : Int
  embedding : Option (List ℚ)
  tokenCount : Nat
deriving DecidableEq

/-- The database session: `committed` is the durable store, `txn` the state
visible inside the open transaction.  `execute(delete ...)` and `add_all`
change only `txn`; `commit` makes `txn` durable. -/
structure Session where
  committed : List StoredChunk
  txn : List StoredChunk
deriving DecidableEq

/-- `db.execute(delete(TranscriptChunk).where(transcript_id == tid))`. -/
def execDeleteChunks (s : Session) (tid : Nat) : Session :=
  { s with txn := s.txn.filter (fun c => !(c.transcriptId == tid)) }

/-- `db.add_all(rows)`. -/
def addAll (s : Session) (rows : List StoredChunk) : Session :=
  { s with txn := s.txn ++ rows }

/-- `db.commit()`. -/
def commit (s : Session) : Session :=
  { s with committed := s.txn }

/-- Python `len(text.split())`: the number of maximal whitespace-separated
words. -/
def countWordsGo : List Char → Bool → Nat
  | [], _ => 0
  | c :: t, inWord =>
    if c.isWhitespace then countWordsGo t false
    else (if inWord then 0 else 1) + countWordsGo t true

def countWords (l : List Char) : Nat := countWordsGo l false

/-- The batch loop of `embed_transcript`: batches of 50 chunks, one backend
call per batch, `chunk_index = batch offset + position in batch`, embedding
attached when the backend returned a vector at that batch position
(`embeddings[j] if j < len(embeddings) else None`). -/
def buildRows (backend : List (List Char) → List (Nat × List ℚ)) (tid : Nat) :
    Nat → List Chunk → Nat → List StoredChunk
  | 0, _, _ => []
  | _, [], _ => []
  | fuel + 1, cl, i =>
    let batch := cl.take 50
    let embs := generate_embeddings_batch backend (batch.map Chunk.text)
    let rows := batch.enum.map (fun p =>
      (⟨tid, i + p.1, p.2.text, p.2.startChar, p.2.endChar, embs.get? p.1,
        countWords p.2.text⟩ : StoredChunk))
    rows ++ buildRows backend tid fuel (cl.drop 50) (i + 50)

/-- `EmbeddingService.embed_transcript`: delete the document's existing
chunk rows, chunk the text, return 0 when no chunks result (note: without
committing), otherwise embed in batches of 50, bulk-insert, commit, and
return the number of rows written. -/
def embed_transcript (backend : List (List Char) → List (Nat × List ℚ))
    (fuel : Nat) (tid : Nat) (tx : List Char) (s : Session) :
    Option (Nat × Session) :=
  let s1 := execDeleteChunks s tid
  match chunk_text fuel tx none none with
  | none => none
  | some chunks =>
    if chunks = [] then some (0, s1)
    else
      let rows := buildRows backend tid chunks.length chunks 0
      let s2 := addAll s1 rows
      let s3 := commit s2
      some (rows.length, s3)

/-! ### Search services (`vector_search.py`) -/

/-- Display metadata carried by every search result row. -/
structure DocMeta where
  title : String
  sourceType : String
  categoryName : String
  sentiment : String
  createdAt : String
deriving DecidableEq

/-- One row of the pgvector similarity query of `semantic_search`. -/
structure ChunkRow where
  chunkId : Nat
  transcriptId : Nat
  rowText : String
  chunkIndex : Nat
  similarity : ℚ
  meta : DocMeta
deriving DecidableEq

/-- One entry of a document's `matching_chunks` list. -/
structure MatchChunk where
  chunkId : Nat
  chunkText : String
  chunkIndex : Nat
  similarityScore : ℚ
deriving DecidableEq

/-- One grouped semantic-search result document. -/
structure DocEntry where
  transcriptId : Nat
  meta : DocMeta
  matchingChunks : List MatchChunk
  maxSimilarity : ℚ
deriving DecidableEq

/-- Processing of one chunk row for its document's entry: append to
`matching_chunks`, and raise `max_similarity` when this chunk's similarity
exceeds it. -/
def addChunkRow (e : DocEntry) (r : ChunkRow) : DocEntry :=
  { e with
    matchingChunks :=
      e.matchingChunks ++ [⟨r.chunkId, r.rowText, r.chunkIndex, r.similarity⟩],
    maxSimilarity :=
      if r.similarity > e.maxSimilarity then r.similarity else e.maxSimilarity }

/-- One step of the grouping loop of `semantic_search`: a fresh document gets
an entry with empty `matching_chunks` and `max_similarity = 0`, then the row
is folded into its document's entry. -/
def groupStep (acc : List DocEntry) (r : ChunkRow) : List DocEntry :=
  if acc.any (fun e => e.transcriptId == r.transcriptId) then
    acc.map (fun e => if e.transcriptId = r.transcriptId then addChunkRow e r else e)
  else acc ++ [addChunkRow ⟨r.transcriptId, r.meta, [], 0⟩ r]

/-- Grouping of similarity rows by parent transcript (a Python dict keyed by
transcript id, in insertion order). -/
def groupRows (rows : List ChunkRow) : List DocEntry :=
  rows.foldl groupStep []

/-- Python `sorted(l, key=key, reverse=True)`: stable descending sort
(insertion sort is stable, like Python's sort). -/
def sortByDesc {α : Type} (key : α → ℚ) (l : List α) : List α :=
  l.insertionSort (fun a b => key b ≤ key a)

/-- A `SearchHistory` row (the spec's SearchEvent). -/
structure SearchEvt where
  userId : Nat
  queryText : List Char
  searchType : String
  resultsCount : Nat
  executionTimeMs : Nat
deriving DecidableEq

/-- The response of `semantic_search`. -/
structure SemOutput where
  results : List DocEntry
  total : Nat
  query : List Char
  searchType : String
  executionTimeMs : Nat
deriving DecidableEq

/-- `VectorSearchService.semantic_search`: embed the query (propagating
`EmbeddingError`), fetch the chunk rows the SQL returns (restricted to
`similarity >= threshold`, ordered by similarity descending, capped at
`limit * 2`), group by transcript, rank documents by `max_similarity`
descending, truncate to `limit`, log a `"semantic"` search event, and
return the response.  `rows` is the external store's table of candidate
rows for this query. -/
def semantic_search (backend : List Char → Except String (List ℚ))
    (rows : List ChunkRow) (query : List Char) (userId : Nat) (lim : Nat)
    (threshold : ℚ) (log : List SearchEvt) :
    Except EmbeddingError (SemOutput × List SearchEvt) :=
  match generate_embedding backend query with
  | .error e => .error e
  | .ok _ =>
    let fetched :=
      (sortByDesc (fun r => r.similarity)
        (rows.filter (fun r => decide (threshold ≤ r.similarity)))).take (lim * 2)
    let results := (sortByDesc (fun e => e.maxSimilarity) (groupRows fetched)).take lim
    let evt : SearchEvt := ⟨userId, query, "semantic", results.length, 0⟩
    .ok (⟨results, results.length, query, "semantic", 0⟩, log ++ [evt])

/-- One row of the full-text query of `keyword_search` (also the per-result
record of its response). -/
structure KwRow where
  transcriptId : Nat
  meta : DocMeta
  snippet : String
  rankScore : ℚ
deriving DecidableEq

/-- The response of `keyword_search`. -/
structure KwOutput where
  results : List KwRow
  total : Nat
  query : List Char
  searchType : String
  page : Nat
  executionTimeMs : Nat
deriving DecidableEq

/-- `VectorSearchService.keyword_search`: the SQL orders the lexically
matching rows by rank score descending and applies
`OFFSET (page-1)*limit LIMIT limit`; a `"keyword"` search event is logged.
`rows` is the external store's set of rows matching the query. -/
def keyword_search (rows : List KwRow) (query : List Char) (userId : Nat)
    (lim page : Nat) (log : List SearchEvt) : KwOutput × List SearchEvt :=
  let offset := (page - 1) * lim
  let fetched := ((sortByDesc (fun r => r.rankScore) rows).drop offset).take lim
  let evt : SearchEvt := ⟨userId, query, "keyword", fetched.length, 0⟩
  (⟨fetched, fetched.length, query, "keyword", page, 0⟩, log ++ [evt])

/-- One accumulator entry of `combined_search`.  The Python dict entries are
heterogeneous: semantic-seeded entries carry `matching_chunks` /
`max_similarity` and no `rank_score` or `snippet` key, keyword-only entries
carry `snippet` / `rank_score` and no chunk data; absent keys are `none`. -/
structure CombinedEntry where
  transcriptId : Nat
  meta : DocMeta
  matchingChunks : Option (List MatchChunk)
  maxSimilarity : Option ℚ
  rankScore : Option ℚ
  snippet : Option String
  semanticScore : ℚ
  keywordScore : ℚ
  combinedScore : ℚ
deriving DecidableEq

/-- Seeding of the accumulator from one semantic result:
`semantic_score = max_similarity`, `keyword_score = 0`,
`combined_score = max_similarity * semantic_weight`. -/
def seedEntry (semanticWeight : ℚ) (d : DocEntry) : CombinedEntry :=
  ⟨d.transcriptId, d.meta, some d.matchingChunks, some d.maxSimilarity, none, none,
    d.maxSimilarity, 0, d.maxSimilarity * semanticWeight⟩

/-- Folding one keyword result into the accumulator: an already-present
document gets its `keyword_score` set, the snippet attached and
`keyword_score * keyword_weight` **added** to `combined_score`; a new
document enters with `semantic_score = 0` and
`combined_score = rank_score * keyword_weight`. -/
def kwCombine (keywordWeight : ℚ) (acc : List CombinedEntry) (k : KwRow) :
    List CombinedEntry :=
  if acc.any (fun e => e.transcriptId == k.transcriptId) then
    acc.map (fun e =>
      if e.transcriptId = k.transcriptId then
        { e with
          keywordScore := k.rankScore,
          snippet := some k.snippet,
          combinedScore := e.combinedScore + k.rankScore * keywordWeight }
      else e)
  else
    acc ++ [⟨k.transcriptId, k.meta, none, none, some k.rankScore, some k.snippet,
      0, k.rankScore, k.rankScore * keywordWeight⟩]

/-- The fusion of `combined_search`: seed from the semantic results, fold in
the keyword results. -/
def fuseAll (semanticWeight keywordWeight : ℚ) (sem : List DocEntry)
    (kw : List KwRow) : List CombinedEntry :=
  kw.foldl (kwCombine keywordWeight) (sem.map (seedEntry semanticWeight))

/-- The response of `combined_search`. -/
structure CombOutput where
  results : List CombinedEntry
  total : Nat
  query : List Char
  searchType : String
  executionTimeMs : Nat
deriving DecidableEq

/-- `VectorSearchService.combined_search`: run `semantic_search` (default
threshold 0.7) and `keyword_search` (page 1), each with `limit * 2`; fuse
their results, rank by `combined_score` descending, truncate to `limit`,
and log a `"combined"` search event (after each component search logged its
own event). -/
def combined_search (backend : List Char → Except String (List ℚ))
    (semRows : List ChunkRow) (kwRows : List KwRow) (query : List Char)
    (userId : Nat) (lim : Nat) (semanticWeight keywordWeight : ℚ)
    (log : List SearchEvt) : Except EmbeddingError (CombOutput × List SearchEvt) :=
  match semantic_search backend semRows query userId (lim * 2) (mkRat 7 10) log with
  | .error e => .error e
  | .ok (semOut, log1) =>
    let p := keyword_search kwRows query userId (lim * 2) 1 log1
    let fused := fuseAll semanticWeight keywordWeight semOut.results p.1.results
    let results := (sortByDesc (fun e => e.combinedScore) fused).take lim
    let evt : SearchEvt := ⟨userId, query, "combined", results.length, 0⟩
    .ok (⟨results, results.length, query, "combined", 0⟩, p.2 ++ [evt])

/-- A single-text backend that answers every query with the vector `[1]`. -/
def okBackend : List Char → Except String (List ℚ) := fun _ => .ok [(1 : ℚ)]

/-- Equality of `Except` values is decidable when it is on both sides. -/
instance exceptDecEq {ε α : Type} [DecidableEq ε] [DecidableEq α] :
    DecidableEq (Except ε α) := fun a b =>
  match a, b with
  | .ok x, .ok y =>
    if h : x = y then .isTrue (congrArg Except.ok h)
    else .isFalse (fun hc => h (Except.ok.inj hc))
  | .error x, .error y =>
    if h : x = y then .isTrue (congrArg Except.error h)
    else .isFalse (fun hc => h (Except.error.inj hc))
  | .ok _, .error _ => .isFalse (fun hc => Except.noConfusion hc)
  | .error _, .ok _ => .isFalse (fun hc => Except.noConfusion hc)

/-! ### Concrete inputs used in counterexamples and witnesses -/

/-- Display metadata of the sample rows. -/
def mW : DocMeta := ⟨"t", "note", "c", "pos", "d"⟩

/-- A chunk row of similarity `-2` (admitted by a negative threshold). -/
def negRow : ChunkRow := ⟨1, 7, "chunk", 0, -2, mW⟩

/-- A chunk row of document 7 with similarity 1. -/
def r7 : ChunkRow := ⟨1, 7, "x", 0, 1, mW⟩

/-- A keyword row of document 7 with rank score 2. -/
def w7 : KwRow := ⟨7, mW, "s", 2⟩

/-- The grouped result document for `[r7]`. -/
def dW : DocEntry := ⟨7, mW, [⟨1, "x", 0, 1⟩], 1⟩

/-- The semantic response for query `"q"` over `[r7]`. -/
def semOutW : SemOutput := ⟨[dW], 1, ['q'], "semantic", 0⟩

/-- The log written by that semantic search. -/
def log1W : List SearchEvt := [⟨1, ['q'], "semantic", 1, 0⟩]

/-- The fused combined-search entry for document 7 (semantic 1, keyword 2,
weights 1/1). -/
def eW : CombinedEntry := ⟨7, mW, some [⟨1, "x", 0, 1⟩], some 1, none, some "s", 1, 2, 3⟩

/-- The combined response over `[r7]` / `[w7]` with weights 1/1. -/
def outW : CombOutput := ⟨[eW], 1, ['q'], "combined", 0⟩

/-- The full log written by that combined search. -/
def logW : List SearchEvt :=
  [⟨1, ['q'], "semantic", 1, 0⟩, ⟨1, ['q'], "keyword", 1, 0⟩, ⟨1, ['q'], "combined", 1, 0⟩]

/-- A stale committed chunk row of document 7. -/
def oldChunk : StoredChunk := ⟨7, 0, ['x'], 0, 1, none, 1⟩

/-- A session whose committed store holds a chunk row of document 7 from an
earlier embed. -/
def staleSession : Session := ⟨[oldChunk], [oldChunk]⟩

/-- A batch backend answering `[2]` and `[3]` with the index tags swapped in
its response order. -/
def swapBackend : List (List Char) → List (Nat × List ℚ) :=
  fun _ => [(1, [(3 : ℚ)]), (0, [(2 : ℚ)])]

end Ceo

namespace Ceo

/-! ### Helper lemmas about the chunker -/

theorem chunkLoop_zero (tx : List Char) (cs ov : Int) (start : Int) (chunks : List Chunk) :
    chunkLoop tx cs ov 0 start chunks = none := rfl

theorem chunkLoop_succ (tx : List Char) (cs ov : Int) (fuel : Nat) (start : Int)
    (chunks : List Chunk) :
    chunkLoop tx cs ov (fuel + 1) start chunks =
      if start < (tx.length : Int) then
        chunkLoop tx cs ov fuel (chunkStep tx cs ov start chunks).1
          (chunkStep tx cs ov start chunks).2
      else some chunks := rfl

/-- On the all-whitespace text with `chunk_size = overlap = 10`, the loop
body is the identity on its `(start, chunks)` state. -/
theorem chunkStep_wsText_fixed : chunkStep wsText 10 10 0 [] = (0, []) := by decide

/-- The chunking loop on the all-whitespace text with
`chunk_size = overlap = 10` never terminates: no amount of fuel suffices. -/
theorem chunkLoop_wsText_diverges (fuel : Nat) :
    chunkLoop wsText 10 10 fuel 0 [] = none := by
  induction fuel with
  | zero => rfl
  | succ k ih =>
    rw [chunkLoop_succ, chunkStep_wsText_fixed]
    simp only [if_pos (by decide : (0 : Int) < (wsText.length : Int))]
    exact ih

theorem mem_of_mem_pySlice {c : Char} {tx : List Char} {a b : Int}
    (h : c ∈ pySlice tx a b) : c ∈ tx := by
  unfold pySlice at h
  exact List.mem_of_mem_take (List.mem_of_mem_drop h)

theorem rfindGo_eq_neg_one {d : List Char} (hd : ∃ c ∈ d, c.isWhitespace = true) :
    ∀ (w : List Char), (∀ c ∈ w, c.isWhitespace = false) → ∀ i, rfindGo d w i = -1 := by
  intro w
  induction w with
  | nil => intro _ i; rfl
  | cons a t ih =>
    intro hw i
    have ht : ∀ x ∈ t, x.isWhitespace = false := fun x hx => hw x (List.mem_cons_of_mem _ hx)
    have hpre : d.isPrefixOf (a :: t) = false := by
      cases hb : d.isPrefixOf (a :: t) with
      | false => rfl
      | true =>
        obtain ⟨x, hxd, hxws⟩ := hd
        have hx : x ∈ a :: t := (List.isPrefixOf_iff_prefix.mp hb).subset hxd
        rw [hw x hx] at hxws
        exact absurd hxws (by simp)
    simp only [rfindGo]
    rw [ih ht (i + 1), hpre]
    norm_num

/-- In a whitespace-free window, no delimiter occurs, so `rfind` is `-1`. -/
theorem pyRfind_eq_neg_one {w d : List Char} (hd : ∃ c ∈ d, c.isWhitespace = true)
    (hw : ∀ c ∈ w, c.isWhitespace = false) : pyRfind w d = -1 :=
  rfindGo_eq_neg_one hd w hw 0

/-- In a whitespace-free window, the delimiter scan finds no break point. -/
theorem findBreak_eq_none {w : List Char} {cs : Int}
    (hw : ∀ c ∈ w, c.isWhitespace = false) (hcs : 0 ≤ cs) : findBreak w cs = none := by
  have hall : ∀ d ∈ delims, (decide (2 * pyRfind w d > cs)) = false := by
    intro d hd
    have hex : ∃ c ∈ d, c.isWhitespace = true := by
      fin_cases hd
      · exact ⟨' ', by decide, by decide⟩
      · exact ⟨' ', by decide, by decide⟩
      · exact ⟨' ', by decide, by decide⟩
      · exact ⟨'\n', by decide, by decide⟩
      · exact ⟨'\n', by decide, by decide⟩
    rw [pyRfind_eq_neg_one hex hw]
    exact decide_eq_false (by omega)
  unfold findBreak
  rw [List.find?_eq_none.mpr (fun d hd => by rw [hall d hd]; exact Bool.false_ne_true)]

/-- Stripping a whitespace-free text is the identity. -/
theorem pyStrip_eq_self {w : List Char} (hw : ∀ c ∈ w, c.isWhitespace = false) :
    pyStrip w = w := by
  have h1 : ∀ (l : List Char), (∀ c ∈ l, c.isWhitespace = false) →
      l.dropWhile Char.isWhitespace = l := by
    intro l hl
    cases l with
    | nil => rfl
    | cons a t =>
      rw [List.dropWhile_cons, hl a (List.mem_cons_self a t)]
      simp
  unfold pyStrip
  rw [h1 w hw, h1 w.reverse (fun c hc => hw c (List.mem_reverse.mp hc)),
    List.reverse_reverse]

theorem pySlice_window_ne_nil {tx : List Char} (hlen : tx.length = 2500) {start : Int}
    (h0 : 0 ≤ start) (h1 : start < 2500) : pySlice tx start (start + 1000) ≠ [] := by
  have ha : pyIdx tx.length start = start.toNat := by
    unfold pyIdx
    rw [if_neg (show ¬ start < 0 by omega), hlen]
    omega
  have hb : pyIdx tx.length (start + 1000) = min (start.toNat + 1000) 2500 := by
    unfold pyIdx
    rw [if_neg (show ¬ start + 1000 < 0 by omega), hlen]
    omega
  unfold pySlice
  rw [ha, hb]
  intro hemp
  have hL := congrArg List.length hemp
  simp only [List.length_drop, List.length_take, List.length_nil, hlen] at hL
  omega

/-- One loop iteration on a whitespace-free 2500-character text: no delimiter
break is found, the stripped window is the window itself and is non-empty, so
a chunk `(window, start, min (start+1000) 2500)` is emitted and `start`
advances to `start + 800`. -/
theorem chunkStep_eval_prose {tx : List Char} (hlen : tx.length = 2500)
    (hw : ∀ c ∈ tx, c.isWhitespace = false) {start : Int} (h0 : 0 ≤ start)
    (h1 : start < 2500) (chunks : List Chunk) :
    chunkStep tx 1000 200 start chunks =
      (start + 800,
        chunks ++ [⟨pySlice tx start (start + 1000), start, min (start + 1000) 2500⟩]) := by
  have hwin : ∀ c ∈ pySlice tx start (start + 1000), c.isWhitespace = false :=
    fun c hc => hw c (mem_of_mem_pySlice hc)
  have hfb : findBreak (pySlice tx start (start + 1000)) 1000 = none :=
    findBreak_eq_none hwin (by norm_num)
  have hstrip : pyStrip (pySlice tx start (start + 1000)) = pySlice tx start (start + 1000) :=
    pyStrip_eq_self hwin
  have hne : pySlice tx start (start + 1000) ≠ [] := pySlice_window_ne_nil hlen h0 h1
  have hcast : (tx.length : Int) = 2500 := by rw [hlen]; norm_num
  by_cases hend : start + 1000 < (2500 : Int)
  · simp only [chunkStep, hcast, if_pos hend, hfb, hstrip, if_neg hne,
      List.getLast?_concat]
    rw [if_neg (show ¬ start + 1000 - 200 ≤ start by omega),
      show start + 1000 - 200 = start + 800 by omega]
  · simp only [chunkStep, hcast, if_neg hend, hstrip, if_neg hne, List.getLast?_concat]
    rw [if_neg (show ¬ start + 1000 - 200 ≤ start by omega),
      show start + 1000 - 200 = start + 800 by omega]

/-- Full evaluation of `chunk_text` on any whitespace-free 2500-character
text with the claimed parameters: four chunks are produced, starting at
0, 800, 1600 and 2400. -/
theorem chunk_text_2500_eval (tx : List Char) (hlen : tx.length = 2500)
    (hw : ∀ c ∈ tx, c.isWhitespace = false) (n : Nat) :
    (chunk_text (n + 5) tx (some 1000) (some 200)).map (fun l => l.map Chunk.startChar) =
      some [0, 800, 1600, 2400] := by
  have hcast : (tx.length : Int) = 2500 := by rw [hlen]; norm_num
  have hc1 : pyOr (some 1000) 1000 = 1000 := by decide
  have hc2 : pyOr (some 200) 200 = 200 := by decide
  have hcond : ¬(tx = [] ∨ (tx.length : Int) ≤ 1000) := by
    rw [hcast]
    rintro (h | h)
    · rw [h] at hlen; simp at hlen
    · norm_num at h
  simp only [chunk_text, hc1, hc2, if_neg hcond]
  rw [show n + 5 = (n + 4) + 1 from rfl, chunkLoop_succ, hcast,
    if_pos (show (0 : Int) < 2500 by norm_num),
    chunkStep_eval_prose hlen hw (by norm_num) (by norm_num)]
  rw [show n + 4 = (n + 3) + 1 from rfl, chunkLoop_succ, hcast,
    if_pos (show (0 + 800 : Int) < 2500 by norm_num),
    chunkStep_eval_prose hlen hw (by norm_num) (by norm_num)]
  rw [show n + 3 = (n + 2) + 1 from rfl, chunkLoop_succ, hcast,
    if_pos (show (0 + 800 + 800 : Int) < 2500 by norm_num),
    chunkStep_eval_prose hlen hw (by norm_num) (by norm_num)]
  rw [show n + 2 = (n + 1) + 1 from rfl, chunkLoop_succ, hcast,
    if_pos (show (0 + 800 + 800 + 800 : Int) < 2500 by norm_num),
    chunkStep_eval_prose hlen hw (by norm_num) (by norm_num)]
  rw [chunkLoop_succ, hcast,
    if_neg (show ¬ (0 + 800 + 800 + 800 + 800 : Int) < 2500 by norm_num)]
  simp only [Option.map_some', List.map_cons, List.map_nil, List.nil_append,
    List.cons_append]
  norm_num

/-! ### Claim C5 -/

/-- C5: the claim states that `chunk_text` terminates for every input,
including `overlap >= chunk_size` on texts whose every window strips to
empty.  The code does not: on a 20-space text with `chunk_size = 10` and
`overlap = 10`, no chunk is ever emitted, so the forced-advance guard
(whose Python conditional expression is falsy whenever the chunk list is
empty) never fires and `start` stays at `0` forever.  No fuel bound makes
the loop finish. -/
theorem c5_chunk_text_diverges (fuel : Nat) :
    chunk_text fuel wsText (some 10) (some 10) = none := by
  have h : ¬(wsText = [] ∨ ((wsText.length : Nat) : Int) ≤ pyOr (some 10) 1000) := by decide
  unfold chunk_text
  rw [if_neg h]
  exact chunkLoop_wsText_diverges fuel

/-! ### Claim C3 -/

/-- C3 counterexample: on a concrete 2500-character delimiter-free text
(2500 `'a'`s) with `chunk_size = 1000, overlap = 200`, `chunk_text` produces
4 chunks with starts 0, 800, 1600, 2400 — not 3 chunks as claimed. -/
theorem c3_chunk_count_counterexample :
    (chunk_text 5 prose2500 (some 1000) (some 200)).map
        (fun l => l.map Chunk.startChar) = some [0, 800, 1600, 2400] ∧
      ¬ ∃ l, chunk_text 5 prose2500 (some 1000) (some 200) = some l ∧ l.length = 3 := by
  have hlen : prose2500.length = 2500 := by
    unfold prose2500; exact List.length_replicate 2500 'a'
  have hw : ∀ c ∈ prose2500, c.isWhitespace = false := fun c hc => by
    rw [List.eq_of_mem_replicate hc]; decide
  have h := chunk_text_2500_eval prose2500 hlen hw 0
  refine ⟨h, ?_⟩
  rintro ⟨l, hl, h3⟩
  rw [hl] at h
  simp only [Option.map_some', Option.some.injEq] at h
  have h4 := congrArg List.length h
  simp only [List.length_map] at h4
  rw [h3] at h4
  simp at h4

/-- C3 (amended): for every 2500-character text of whitespace-free prose
(hence containing none of the delimiters, and with no window stripping to
empty), chunking with `chunk_size = 1000, overlap = 200` produces exactly
**4** chunks, each successive chunk's start advancing by 800 characters
(starts 0, 800, 1600, 2400). -/
theorem c3_chunk_starts_2500 (tx : List Char) (hlen : tx.length = 2500)
    (hw : ∀ c ∈ tx, c.isWhitespace = false) (n : Nat) :
    (chunk_text (n + 5) tx (some 1000) (some 200)).map (fun l => l.map Chunk.startChar) =
      some [0, 800, 1600, 2400] :=
  chunk_text_2500_eval tx hlen hw n

theorem c3_chunk_starts_2500_witness :
    (chunk_text 5 prose2500 (some 1000) (some 200)).map (fun l => l.map Chunk.startChar) =
      some [0, 800, 1600, 2400] :=
  c3_chunk_starts_2500 prose2500 (by unfold prose2500; exact List.length_replicate 2500 'a')
    (fun c hc => by rw [List.eq_of_mem_replicate hc]; decide) 0

/-! ### Claim C4 -/

/-- C4 counterexample: for the non-empty text `" a "` (shorter than the
chunk size) the single emitted chunk carries the **un-stripped** full text
`" a "`, while the claim says the chunk text is the stripped text `"a"`. -/
theorem c4_unstripped_counterexample :
    chunk_text 1 spacePadded none none = some [⟨spacePadded, 0, 3⟩] ∧
      pyStrip spacePadded = ['a'] ∧ spacePadded ≠ ['a'] := by decide

/-- C4 (amended): for every non-empty text with `len(text) <= chunk_size`,
chunking produces exactly one chunk whose text is the full text **verbatim**
(no whitespace stripping) with offsets `(0, len(text))`; for empty text it
produces the empty sequence. -/
theorem c4_single_chunk (fuel : Nat) (tx : List Char) (csArg ovArg : Option Int)
    (h : (tx.length : Int) ≤ pyOr csArg 1000) :
    chunk_text fuel tx csArg ovArg =
      if tx = [] then some [] else some [⟨tx, 0, (tx.length : Int)⟩] := by
  simp only [chunk_text, if_pos (Or.inr h)]

theorem c4_single_chunk_witness :
    chunk_text 1 spacePadded none none =
      if spacePadded = [] then some []
      else some [⟨spacePadded, 0, (spacePadded.length : Int)⟩] :=
  c4_single_chunk 1 spacePadded none none (by decide)

/-! ### Claim C10 -/

/-- C10: passing an explicit `0` for `overlap` (or for `chunk_size`) is
treated as unset — Python's `overlap or self.chunk_overlap` maps both `None`
and `0` to the configured default — so chunking with `overlap = 0` equals
chunking with the default overlap of 200, for every text, fuel and other
parameter. -/
theorem c10_zero_param_uses_default (fuel : Nat) (tx : List Char) (csArg ovArg : Option Int) :
    chunk_text fuel tx csArg (some 0) = chunk_text fuel tx csArg none ∧
      chunk_text fuel tx (some 0) ovArg = chunk_text fuel tx none ovArg := by
  constructor <;> simp [chunk_text, pyOr]

/-! ### Claim C8 -/

/-- C8: a semantic search whose query is empty or whitespace-only fails with
`EmbeddingError` propagated from embedding the query (no zero-result success
response), and `embed_one("")` / `embed_one("   ")` raise `EmbeddingError`. -/
theorem c8_blank_query_errors (backend : List Char → Except String (List ℚ))
    (rows : List ChunkRow) (query : List Char) (userId lim : Nat) (threshold : ℚ)
    (log : List SearchEvt) (hq : query = [] ∨ pyStrip query = []) :
    semantic_search backend rows query userId lim threshold log =
        .error ⟨"Cannot embed empty text"⟩ ∧
      generate_embedding backend [] = .error ⟨"Cannot embed empty text"⟩ ∧
      generate_embedding backend [' ', ' ', ' '] = .error ⟨"Cannot embed empty text"⟩ := by
  have hg : generate_embedding backend query = .error ⟨"Cannot embed empty text"⟩ := by
    unfold generate_embedding
    rw [if_pos hq]
  refine ⟨?_, ?_, ?_⟩
  · unfold semantic_search
    rw [hg]
  · unfold generate_embedding
    rw [if_pos (Or.inl rfl)]
  · unfold generate_embedding
    rw [if_pos (Or.inr (by decide))]

theorem c8_blank_query_errors_witness :
    semantic_search okBackend [] [' '] 1 10 (7 / 10) [] =
        .error ⟨"Cannot embed empty text"⟩ ∧
      generate_embedding okBackend [] = .error ⟨"Cannot embed empty text"⟩ ∧
      generate_embedding okBackend [' ', ' ', ' '] = .error ⟨"Cannot embed empty text"⟩ :=
  c8_blank_query_errors okBackend [] [' '] 1 10 (7 / 10) [] (Or.inr (by decide))

/-! ### Helper lemmas for the semantic grouping -/

theorem addChunkRow_maxSim (e : DocEntry) (r : ChunkRow)
    (h : e.maxSimilarity = (e.matchingChunks.map MatchChunk.similarityScore).foldl max 0) :
    (addChunkRow e r).maxSimilarity =
      ((addChunkRow e r).matchingChunks.map MatchChunk.similarityScore).foldl max 0 := by
  unfold addChunkRow
  simp only [List.map_append, List.map_cons, List.map_nil, List.foldl_append,
    List.foldl_cons, List.foldl_nil]
  rw [← h]
  rcases le_or_lt r.similarity e.maxSimilarity with hle | hlt
  · rw [if_neg (not_lt.mpr hle), max_eq_left hle]
  · rw [if_pos hlt, max_eq_right hlt.le]

/-- Invariant of the grouping fold: every entry's `max_similarity` is the
fold of `max` over 0 and its chunks' similarities. -/
theorem groupRows_maxSim_inv :
    ∀ (rows : List ChunkRow) (acc : List DocEntry),
      (∀ a ∈ acc,
        a.maxSimilarity = (a.matchingChunks.map MatchChunk.similarityScore).foldl max 0) →
      ∀ e ∈ rows.foldl groupStep acc,
        e.maxSimilarity = (e.matchingChunks.map MatchChunk.similarityScore).foldl max 0 := by
  intro rows
  induction rows with
  | nil => intro acc hacc e he; exact hacc e he
  | cons r rest ih =>
    intro acc hacc e he
    simp only [List.foldl_cons] at he
    refine ih (groupStep acc r) ?_ e he
    intro a ha
    unfold groupStep at ha
    by_cases hmem : acc.any (fun x => x.transcriptId == r.transcriptId) = true
    · rw [if_pos hmem] at ha
      obtain ⟨b, hb, hba⟩ := List.mem_map.mp ha
      by_cases htid : b.transcriptId = r.transcriptId
      · rw [if_pos htid] at hba
        rw [← hba]
        exact addChunkRow_maxSim b r (hacc b hb)
      · rw [if_neg htid] at hba
        rw [← hba]
        exact hacc b hb
    · rw [if_neg hmem] at ha
      rcases List.mem_append.mp ha with h | h
      · exact hacc a h
      · rw [List.mem_singleton.mp h]
        exact addChunkRow_maxSim _ r (by simp)

/-! ### Claim C2 -/

/-- C2 counterexample: with `similarity_threshold = -3` a single matching
chunk of (negative) similarity `-2` is admitted; the claim says the result
document's `max_similarity` is then `-2` (the highest among its matching
chunks), but the code initialises the running maximum at `0` and only raises
it, so the returned `max_similarity` is `0`. -/
theorem c2_negative_similarity_counterexample :
    ((semantic_search okBackend [negRow] ['q'] 1 10 (-3) []).toOption.map
        (fun p => p.1.results.map (fun e =>
          (e.maxSimilarity, e.matchingChunks.map MatchChunk.similarityScore)))) =
      some [((0 : ℚ), [(-2 : ℚ)])] ∧ (0 : ℚ) ≠ (-2 : ℚ) := by
  constructor
  · decide
  · decide

/-- C2 (amended): for every `semantic_search` result document,
`max_similarity` equals the maximum of `0` and the similarities of its
`matching_chunks` (the code's running maximum starts at 0); when some chunk
similarity is non-negative this is the highest chunk similarity, but
thresholds admitting only negative similarities yield `max_similarity = 0`. -/
theorem c2_max_similarity (backend : List Char → Except String (List ℚ))
    (rows : List ChunkRow) (query : List Char) (userId lim : Nat) (threshold : ℚ)
    (log : List SearchEvt) (out : SemOutput) (log' : List SearchEvt)
    (h : semantic_search backend rows query userId lim threshold log = .ok (out, log')) :
    ∀ e ∈ out.results,
      e.maxSimilarity = (e.matchingChunks.map MatchChunk.similarityScore).foldl max 0 := by
  unfold semantic_search at h
  cases hg : generate_embedding backend query with
  | error err => rw [hg] at h; exact absurd h (by simp)
  | ok v =>
    rw [hg] at h
    simp only [Except.ok.injEq, Prod.mk.injEq] at h
    obtain ⟨hout, -⟩ := h
    intro e he
    rw [← hout] at he
    simp only [SemOutput.results] at he
    have h1 : e ∈ sortByDesc (fun x => x.maxSimilarity)
        (groupRows ((sortByDesc (fun r => r.similarity)
          (rows.filter (fun r => decide (threshold ≤ r.similarity)))).take (lim * 2))) :=
      List.mem_of_mem_take he
    have h2 := (List.perm_insertionSort
      (fun a b : DocEntry => b.maxSimilarity ≤ a.maxSimilarity) _).mem_iff.mp h1
    exact groupRows_maxSim_inv _ [] (by simp) e h2

theorem c2_max_similarity_witness :
    dW.maxSimilarity = (dW.matchingChunks.map MatchChunk.similarityScore).foldl max 0 :=
  c2_max_similarity okBackend [r7] ['q'] 1 5 (mkRat 7 10) [] semOutW log1W (by decide)
    dW (by decide)

/-! ### Claim C6 -/

/-- C6: re-embedding document 7 (whose store holds a chunk row from an
earlier embed) with text `""` returns normally with 0 chunks, but the
delete of the old rows is never committed: the committed store still holds
the stale chunk row, contradicting the full-replacement invariant. -/
theorem c6_uncommitted_delete_on_empty :
    embed_transcript unitBackend 1 7 [] staleSession = some (0, ⟨[oldChunk], []⟩) ∧
      (⟨[oldChunk], []⟩ : Session).committed = [oldChunk] ∧
      oldChunk.transcriptId = 7 := by decide

/-! ### Claim C7 -/

/-- C7 counterexample: a whitespace-only (hence non-empty) input text is
filtered out before the backend call, so batch embedding returns zero
vectors for one input — not one vector per input. -/
theorem c7_blank_input_dropped :
    generate_embeddings_batch unitBackend [[' ']] = [] ∧
      ([[' ']] : List (List Char)).length = 1 := by decide

/-- Sorting an arbitrary permutation of an index-tagged list by its index
keys recovers the enumeration itself. -/
theorem insertionSort_enum_of_perm {α : Type} {l : List (Nat × α)} {v : List α}
    (hp : l.Perm v.enum) :
    l.insertionSort (fun a b => a.1 ≤ b.1) = v.enum := by
  haveI h1 : IsTotal (Nat × α) (fun a b => a.1 ≤ b.1) := ⟨fun a b => Nat.le_total a.1 b.1⟩
  haveI h2 : IsTrans (Nat × α) (fun a b => a.1 ≤ b.1) := ⟨fun a b c ha hb => le_trans ha hb⟩
  have hperm : List.Perm (l.insertionSort (fun a b => a.1 ≤ b.1)) v.enum :=
    (List.perm_insertionSort _ l).trans hp
  have hs : List.Sorted (fun a b : Nat × α => a.1 ≤ b.1)
      (l.insertionSort (fun a b => a.1 ≤ b.1)) :=
    List.sorted_insertionSort _ l
  have hnodup : ((l.insertionSort (fun a b => a.1 ≤ b.1)).map Prod.fst).Nodup := by
    have hm : List.Perm ((l.insertionSort (fun a b => a.1 ≤ b.1)).map Prod.fst)
        (v.enum.map Prod.fst) :=
      hperm.map _
    rw [List.enum_map_fst] at hm
    exact hm.nodup_iff.mpr (List.nodup_range _)
  have hlt1 : List.Sorted (fun a b : Nat × α => a.1 < b.1)
      (l.insertionSort (fun a b => a.1 ≤ b.1)) := by
    have hpair := List.Pairwise.and hs (List.pairwise_map.mp hnodup)
    exact hpair.imp (fun h => lt_of_le_of_ne h.1 h.2)
  have hlt2 : List.Sorted (fun a b : Nat × α => a.1 < b.1) v.enum := by
    have hr : List.Pairwise (· < ·) (v.enum.map Prod.fst) := by
      rw [List.enum_map_fst]
      exact List.pairwise_lt_range _
    exact List.pairwise_map.mp hr
  haveI : IsAntisymm (Nat × α) (fun a b => a.1 < b.1) :=
    ⟨fun a b hab hba => absurd (hab.trans hba) (lt_irrefl _)⟩
  exact List.eq_of_perm_of_sorted hperm hlt1 hlt2

/-- C7 (amended): for every list of non-**blank** input texts (each
containing a non-whitespace character — blank texts are filtered out by the
code), batch embedding returns one vector per input in input order: when the
backend's `(index, vector)` pairs are any permutation of the enumeration of
a vector list `vecs`, the result is exactly `vecs`, i.e. the `i`-th element
is the vector the backend tagged with index `i`. -/
theorem c7_batch_order (backend : List (List Char) → List (Nat × List ℚ))
    (texts : List (List Char)) (vecs : List (List ℚ))
    (hne : texts ≠ [])
    (hnb : ∀ t ∈ texts, t ≠ [] ∧ pyStrip t ≠ [])
    (hresp : (backend (texts.map (fun t => t.take 8000))).Perm vecs.enum)
    (hlen : vecs.length = texts.length) :
    generate_embeddings_batch backend texts = vecs ∧
      (generate_embeddings_batch backend texts).length = texts.length := by
  have hfilter : texts.filter (fun t => !t.isEmpty && !(pyStrip t).isEmpty) = texts := by
    apply List.filter_eq_self.mpr
    intro t ht
    obtain ⟨ha, hb⟩ := hnb t ht
    simp [List.isEmpty_iff, ha, hb]
  have hmain : generate_embeddings_batch backend texts = vecs := by
    simp only [generate_embeddings_batch]
    rw [if_neg hne, hfilter,
      if_neg (show texts.map (fun t => t.take 8000) ≠ [] by
        intro hc
        exact hne (List.map_eq_nil_iff.mp hc)),
      insertionSort_enum_of_perm hresp, List.enum_map_snd]
  exact ⟨hmain, by rw [hmain, hlen]⟩

theorem c7_batch_order_witness :
    generate_embeddings_batch swapBackend [['a'], ['b']] = [[(2 : ℚ)], [(3 : ℚ)]] ∧
      (generate_embeddings_batch swapBackend [['a'], ['b']]).length =
        ([['a'], ['b']] : List (List Char)).length :=
  c7_batch_order swapBackend [['a'], ['b']] [[(2 : ℚ)], [(3 : ℚ)]] (by decide) (by decide)
    (by decide) (by decide)

/-! ### Claim C9 -/

/-- C9 counterexample: a concrete `combined_search` call writes **three**
search-history rows — one `"semantic"` and one `"keyword"` event from the
nested component searches, then the `"combined"` event — not exactly one
`"combined"` row as claimed. -/
theorem c9_three_events_counterexample :
    ((combined_search okBackend [] [] ['q'] 1 5 1 1 []).toOption.map
        (fun p => p.2.map SearchEvt.searchType)) =
      some ["semantic", "keyword", "combined"] ∧
      (["semantic", "keyword", "combined"] : List String) ≠ ["combined"] := by decide

/-- C9 (amended): every `combined_search` call whose query embeds
successfully appends exactly three `SearchHistory` rows to the log — a
`"semantic"` and a `"keyword"` event from the nested component searches,
and finally the `"combined"` event. -/
theorem c9_combined_logs_three_events (backend : List Char → Except String (List ℚ))
    (semRows : List ChunkRow) (kwRows : List KwRow) (query : List Char)
    (userId lim : Nat) (semanticWeight keywordWeight : ℚ) (log : List SearchEvt)
    (v : List ℚ) (hq : generate_embedding backend query = .ok v) :
    ∃ out n1 n2 n3,
      combined_search backend semRows kwRows query userId lim
          semanticWeight keywordWeight log =
        .ok (out, log ++ [⟨userId, query, "semantic", n1, 0⟩,
          ⟨userId, query, "keyword", n2, 0⟩, ⟨userId, query, "combined", n3, 0⟩]) := by
  unfold combined_search semantic_search keyword_search
  rw [hq]
  simp only [List.append_assoc, List.cons_append, List.nil_append]
  exact ⟨_, _, _, _, rfl⟩

/-! ### Helper lemmas for the combined-search fusion -/

theorem kwCombine_map_tid (keywordWeight : ℚ) (acc : List CombinedEntry) (k : KwRow) :
    (kwCombine keywordWeight acc k).map CombinedEntry.transcriptId =
      if acc.any (fun e => e.transcriptId == k.transcriptId) then
        acc.map CombinedEntry.transcriptId
      else acc.map CombinedEntry.transcriptId ++ [k.transcriptId] := by
  unfold kwCombine
  by_cases hmem : acc.any (fun e => e.transcriptId == k.transcriptId) = true
  · rw [if_pos hmem, if_pos hmem, List.map_map]
    apply List.map_congr_left
    intro e he
    by_cases h : e.transcriptId = k.transcriptId <;> simp [h]
  · rw [if_neg hmem, if_neg hmem]
    simp

theorem kwCombine_tids_nodup (keywordWeight : ℚ) (acc : List CombinedEntry) (k : KwRow)
    (h : (acc.map CombinedEntry.transcriptId).Nodup) :
    ((kwCombine keywordWeight acc k).map CombinedEntry.transcriptId).Nodup := by
  rw [kwCombine_map_tid]
  by_cases hmem : acc.any (fun e => e.transcriptId == k.transcriptId) = true
  · rw [if_pos hmem]; exact h
  · rw [if_neg hmem, List.nodup_append]
    refine ⟨h, List.nodup_singleton _, ?_⟩
    intro a ha hb
    rw [List.mem_singleton] at hb
    subst hb
    obtain ⟨e, he, htid⟩ := List.mem_map.mp ha
    exact hmem (List.any_eq_true.mpr ⟨e, he, by simp [htid]⟩)

theorem fuseFold_tids_nodup (keywordWeight : ℚ) :
    ∀ (kws : List KwRow) (acc : List CombinedEntry),
      (acc.map CombinedEntry.transcriptId).Nodup →
      ((kws.foldl (kwCombine keywordWeight) acc).map CombinedEntry.transcriptId).Nodup := by
  intro kws
  induction kws with
  | nil => intro acc h; exact h
  | cons k rest ih =>
    intro acc h
    simp only [List.foldl_cons]
    exact ih _ (kwCombine_tids_nodup _ _ _ h)

/-- An accumulator entry whose document no keyword result mentions survives
the keyword fold unchanged. -/
theorem fuseFold_untouched (keywordWeight : ℚ) :
    ∀ (kws : List KwRow) (acc : List CombinedEntry) (a : CombinedEntry),
      a ∈ acc → (∀ k ∈ kws, k.transcriptId ≠ a.transcriptId) →
      a ∈ kws.foldl (kwCombine keywordWeight) acc := by
  intro kws
  induction kws with
  | nil => intro acc a ha _; exact ha
  | cons k rest ih =>
    intro acc a ha hk
    simp only [List.foldl_cons]
    refine ih _ a ?_ (fun q hq => hk q (List.mem_cons_of_mem _ hq))
    unfold kwCombine
    by_cases hmem : acc.any (fun e => e.transcriptId == k.transcriptId) = true
    · rw [if_pos hmem]
      refine List.mem_map.mpr ⟨a, ha, ?_⟩
      rw [if_neg (fun hc => hk k (List.mem_cons_self _ _) hc.symm)]
    · rw [if_neg hmem]
      exact List.mem_append_left _ ha

/-- An accumulator entry whose document one keyword result mentions ends up
with that keyword result folded in. -/
theorem fuseFold_updated (keywordWeight : ℚ) :
    ∀ (kws : List KwRow) (acc : List CombinedEntry) (a : CombinedEntry) (k : KwRow),
      a ∈ acc → k ∈ kws → k.transcriptId = a.transcriptId →
      (kws.map KwRow.transcriptId).Nodup →
      ({ a with
          keywordScore := k.rankScore,
          snippet := some k.snippet,
          combinedScore := a.combinedScore + k.rankScore * keywordWeight } :
        CombinedEntry) ∈ kws.foldl (kwCombine keywordWeight) acc := by
  intro kws
  induction kws with
  | nil => intro acc a k _ hk _ _; exact absurd hk (List.not_mem_nil k)
  | cons k0 rest ih =>
    intro acc a k ha hk htid hnod
    simp only [List.foldl_cons]
    rcases List.mem_cons.mp hk with heq | hrest
    · subst heq
      have hany : acc.any (fun e => e.transcriptId == k.transcriptId) = true :=
        List.any_eq_true.mpr ⟨a, ha, by rw [← htid]; simp⟩
      have hupd : ({ a with
          keywordScore := k.rankScore,
          snippet := some k.snippet,
          combinedScore := a.combinedScore + k.rankScore * keywordWeight } :
          CombinedEntry) ∈ kwCombine keywordWeight acc k := by
        unfold kwCombine
        rw [if_pos hany]
        exact List.mem_map.mpr ⟨a, ha, by rw [if_pos htid.symm]⟩
      refine fuseFold_untouched keywordWeight rest _ _ hupd ?_
      intro q hq
      have hne : q.transcriptId ≠ k.transcriptId := by
        intro hc
        exact (List.nodup_cons.mp hnod).1 (hc ▸ List.mem_map_of_mem _ hq)
      simpa [← htid] using hne
    · have hk0 : k0.transcriptId ≠ a.transcriptId := by
        rw [← htid]
        intro hc
        exact (List.nodup_cons.mp hnod).1 (hc ▸ List.mem_map_of_mem _ hrest)
      have ha2 : a ∈ kwCombine keywordWeight acc k0 := by
        unfold kwCombine
        by_cases hmem : acc.any (fun e => e.transcriptId == k0.transcriptId) = true
        · rw [if_pos hmem]
          exact List.mem_map.mpr ⟨a, ha, by rw [if_neg (fun hc => hk0 hc.symm)]⟩
        · rw [if_neg hmem]
          exact List.mem_append_left _ ha
      exact ih _ a k ha2 hrest htid (List.nodup_cons.mp hnod).2

/-- A keyword result whose document has no accumulator entry enters the fold
as a fresh keyword-only entry. -/
theorem fuseFold_new (keywordWeight : ℚ) :
    ∀ (kws : List KwRow) (acc : List CombinedEntry) (k : KwRow),
      k ∈ kws → k.transcriptId ∉ acc.map CombinedEntry.transcriptId →
      (kws.map KwRow.transcriptId).Nodup →
      (⟨k.transcriptId, k.meta, none, none, some k.rankScore, some k.snippet, 0,
        k.rankScore, k.rankScore * keywordWeight⟩ : CombinedEntry) ∈
        kws.foldl (kwCombine keywordWeight) acc := by
  intro kws
  induction kws with
  | nil => intro acc k hk _ _; exact absurd hk (List.not_mem_nil k)
  | cons k0 rest ih =>
    intro acc k hk hnotin hnod
    simp only [List.foldl_cons]
    rcases List.mem_cons.mp hk with heq | hrest
    · subst heq
      have hnoany : ¬ acc.any (fun e => e.transcriptId == k.transcriptId) = true := by
        intro hc
        obtain ⟨e, he, hbeq⟩ := List.any_eq_true.mp hc
        rw [beq_iff_eq] at hbeq
        exact hnotin (hbeq ▸ List.mem_map_of_mem _ he)
      have hmem0 : (⟨k.transcriptId, k.meta, none, none, some k.rankScore, some k.snippet,
          0, k.rankScore, k.rankScore * keywordWeight⟩ : CombinedEntry) ∈
          kwCombine keywordWeight acc k := by
        unfold kwCombine
        rw [if_neg hnoany]
        exact List.mem_append_right _ (List.mem_singleton_self _)
      refine fuseFold_untouched keywordWeight rest _ _ hmem0 ?_
      intro q hq hc
      have hc2 : q.transcriptId = k.transcriptId := hc
      have hmem2 : k.transcriptId ∈ rest.map KwRow.transcriptId :=
        hc2 ▸ List.mem_map_of_mem _ hq
      exact (List.nodup_cons.mp hnod).1 hmem2
    · have hk0 : k0.transcriptId ≠ k.transcriptId := by
        intro hc
        exact (List.nodup_cons.mp hnod).1 (hc ▸ List.mem_map_of_mem _ hrest)
      have hnotin2 : k.transcriptId ∉
          (kwCombine keywordWeight acc k0).map CombinedEntry.transcriptId := by
        rw [kwCombine_map_tid]
        by_cases hmem : acc.any (fun e => e.transcriptId == k0.transcriptId) = true
        · rw [if_pos hmem]; exact hnotin
        · rw [if_neg hmem]
          intro hc
          rcases List.mem_append.mp hc with h | h
          · exact hnotin h
          · exact hk0 (List.mem_singleton.mp h).symm
      exact ih _ k hrest hnotin2 (List.nodup_cons.mp hnod).2

theorem groupStep_map_tid (acc : List DocEntry) (r : ChunkRow) :
    (groupStep acc r).map DocEntry.transcriptId =
      if acc.any (fun e => e.transcriptId == r.transcriptId) then
        acc.map DocEntry.transcriptId
      else acc.map DocEntry.transcriptId ++ [r.transcriptId] := by
  unfold groupStep
  by_cases hmem : acc.any (fun e => e.transcriptId == r.transcriptId) = true
  · rw [if_pos hmem, if_pos hmem, List.map_map]
    apply List.map_congr_left
    intro e he
    by_cases h : e.transcriptId = r.transcriptId <;> simp [h, addChunkRow]
  · rw [if_neg hmem, if_neg hmem]
    simp [addChunkRow]

/-- Grouping by transcript id yields pairwise-distinct transcript ids. -/
theorem groupRows_tids_nodup :
    ∀ (rows : List ChunkRow) (acc : List DocEntry),
      (acc.map DocEntry.transcriptId).Nodup →
      ((rows.foldl groupStep acc).map DocEntry.transcriptId).Nodup := by
  intro rows
  induction rows with
  | nil => intro acc h; exact h
  | cons r rest ih =>
    intro acc h
    simp only [List.foldl_cons]
    refine ih _ ?_
    rw [groupStep_map_tid]
    by_cases hmem : acc.any (fun e => e.transcriptId == r.transcriptId) = true
    · rw [if_pos hmem]; exact h
    · rw [if_neg hmem, List.nodup_append]
      refine ⟨h, List.nodup_singleton _, ?_⟩
      intro a ha hb
      rw [List.mem_singleton] at hb
      subst hb
      obtain ⟨e, he, htid⟩ := List.mem_map.mp ha
      exact hmem (List.any_eq_true.mpr ⟨e, he, by simp [htid]⟩)

/-- Keys stay pairwise distinct on any sublist of a sorted copy. -/
theorem nodup_map_of_sublist_sort {α β : Type} (f : α → β) (r : α → α → Prop)
    [DecidableRel r] (l : List α) {l2 : List α}
    (hsub : List.Sublist l2 (l.insertionSort r))
    (h : (l.map f).Nodup) : (l2.map f).Nodup := by
  have hperm : List.Perm ((l.insertionSort r).map f) (l.map f) :=
    (List.perm_insertionSort r l).map f
  have h2 : ((l.insertionSort r).map f).Nodup := hperm.nodup_iff.mpr h
  exact h2.sublist (hsub.map f)

/-- Two members of a list with pairwise-distinct transcript ids that share a
transcript id are equal. -/
theorem mem_unique_of_nodup_tids {l : List CombinedEntry}
    (h : (l.map CombinedEntry.transcriptId).Nodup) {a b : CombinedEntry}
    (ha : a ∈ l) (hb : b ∈ l) (htid : a.transcriptId = b.transcriptId) : a = b :=
  List.inj_on_of_nodup_map h ha hb htid

theorem c9_combined_logs_three_events_witness :
    ∃ out n1 n2 n3,
      combined_search okBackend [r7] [w7] ['q'] 1 5 1 1 [] =
        .ok (out, [] ++ [⟨1, ['q'], "semantic", n1, 0⟩,
          ⟨1, ['q'], "keyword", n2, 0⟩, ⟨1, ['q'], "combined", n3, 0⟩]) :=
  c9_combined_logs_three_events okBackend [r7] [w7] ['q'] 1 5 1 1 [] [(1 : ℚ)] (by decide)

/-! ### Claim C1 -/

/-- C1: in the result of `combined_search`, a document present in both the
semantic and keyword result sets has
`combined_score = semantic_score * semantic_weight + keyword_score * keyword_weight`
exactly; a document present only in the semantic set has
`combined_score = semantic_score * semantic_weight`; a document present only
in the keyword set has `combined_score = keyword_score * keyword_weight`.
(`semantic_score` of a semantic result is its `max_similarity`;
`keyword_score` of a keyword result is its `rank_score`; keyword rows are
assumed to carry pairwise-distinct document ids, the store's primary key.) -/
theorem c1_combined_scores (backend : List Char → Except String (List ℚ))
    (semRows : List ChunkRow) (kwRows : List KwRow) (query : List Char)
    (userId lim : Nat) (semanticWeight keywordWeight : ℚ) (log : List SearchEvt)
    (out : CombOutput) (logOut : List SearchEvt) (semOut : SemOutput)
    (log1 : List SearchEvt)
    (hsem : semantic_search backend semRows query userId (lim * 2) (mkRat 7 10) log =
      .ok (semOut, log1))
    (hco : combined_search backend semRows kwRows query userId lim semanticWeight
      keywordWeight log = .ok (out, logOut))
    (hkw : (kwRows.map KwRow.transcriptId).Nodup)
    (e : CombinedEntry) (he : e ∈ out.results) :
    (∀ s ∈ semOut.results, s.transcriptId = e.transcriptId →
      ∀ k ∈ (keyword_search kwRows query userId (lim * 2) 1 log1).1.results,
        k.transcriptId = e.transcriptId →
        e.combinedScore =
          s.maxSimilarity * semanticWeight + k.rankScore * keywordWeight) ∧
    (∀ s ∈ semOut.results, s.transcriptId = e.transcriptId →
      (∀ k ∈ (keyword_search kwRows query userId (lim * 2) 1 log1).1.results,
        k.transcriptId ≠ e.transcriptId) →
      e.combinedScore = s.maxSimilarity * semanticWeight) ∧
    (∀ k ∈ (keyword_search kwRows query userId (lim * 2) 1 log1).1.results,
      k.transcriptId = e.transcriptId →
      (∀ s ∈ semOut.results, s.transcriptId ≠ e.transcriptId) →
      e.combinedScore = k.rankScore * keywordWeight) := by
  -- reduce `combined_search` using the semantic component's value
  unfold combined_search at hco
  rw [hsem] at hco
  simp only [Except.ok.injEq, Prod.mk.injEq] at hco
  obtain ⟨hout, -⟩ := hco
  rw [← hout] at he
  simp only [CombOutput.results] at he
  -- membership of `e` in the fused accumulator
  have heFused : e ∈ fuseAll semanticWeight keywordWeight semOut.results
      (keyword_search kwRows query userId (lim * 2) 1 log1).1.results := by
    have h1 := List.mem_of_mem_take he
    exact (List.perm_insertionSort _ _).mem_iff.mp h1
  unfold fuseAll at heFused
  -- the semantic result documents are pairwise distinct
  have hsemNodup : (semOut.results.map DocEntry.transcriptId).Nodup := by
    unfold semantic_search at hsem
    cases hg : generate_embedding backend query with
    | error err => rw [hg] at hsem; exact absurd hsem (by simp)
    | ok v =>
      rw [hg] at hsem
      simp only [Except.ok.injEq, Prod.mk.injEq] at hsem
      obtain ⟨hsemOut, -⟩ := hsem
      rw [← hsemOut]
      simp only [SemOutput.results]
      exact nodup_map_of_sublist_sort _ _ _ (List.take_sublist _ _)
        (groupRows_tids_nodup _ [] (by simp))
  have hseedNodup : ((semOut.results.map (seedEntry semanticWeight)).map
      CombinedEntry.transcriptId).Nodup := by
    rw [List.map_map]
    exact hsemNodup
  -- the keyword result documents are pairwise distinct
  have hkwResNodup : (((keyword_search kwRows query userId (lim * 2) 1 log1).1.results).map
      KwRow.transcriptId).Nodup := by
    unfold keyword_search
    simp only [KwOutput.results]
    exact nodup_map_of_sublist_sort _ _ _
      ((List.take_sublist _ _).trans (List.drop_sublist _ _)) hkw
  have hfusedNodup : ((((keyword_search kwRows query userId (lim * 2) 1 log1).1.results).foldl
      (kwCombine keywordWeight) (semOut.results.map (seedEntry semanticWeight))).map
      CombinedEntry.transcriptId).Nodup :=
    fuseFold_tids_nodup keywordWeight _ _ hseedNodup
  refine ⟨?_, ?_, ?_⟩
  · -- document in both sets
    intro s hs hstid k hk hktid
    have ha : seedEntry semanticWeight s ∈ semOut.results.map (seedEntry semanticWeight) :=
      List.mem_map_of_mem _ hs
    have hktid2 : k.transcriptId = (seedEntry semanticWeight s).transcriptId :=
      hktid.trans hstid.symm
    have hupd := fuseFold_updated keywordWeight
      (keyword_search kwRows query userId (lim * 2) 1 log1).1.results _
      (seedEntry semanticWeight s) k ha hk hktid2 hkwResNodup
    have htid : e.transcriptId = ({ seedEntry semanticWeight s with
        keywordScore := k.rankScore,
        snippet := some k.snippet,
        combinedScore := (seedEntry semanticWeight s).combinedScore +
          k.rankScore * keywordWeight } : CombinedEntry).transcriptId := hstid.symm
    have heq := mem_unique_of_nodup_tids hfusedNodup heFused hupd htid
    rw [heq]
    rfl
  · -- document only in the semantic set
    intro s hs hstid hnok
    have ha : seedEntry semanticWeight s ∈ semOut.results.map (seedEntry semanticWeight) :=
      List.mem_map_of_mem _ hs
    have huntouched := fuseFold_untouched keywordWeight
      (keyword_search kwRows query userId (lim * 2) 1 log1).1.results _
      (seedEntry semanticWeight s) ha
      (fun k hk => by
        have hne := hnok k hk
        intro hc
        have hc2 : k.transcriptId = s.transcriptId := hc
        exact hne (hc2.trans hstid))
    have htid : e.transcriptId = (seedEntry semanticWeight s).transcriptId := hstid.symm
    have heq := mem_unique_of_nodup_tids hfusedNodup heFused huntouched htid
    rw [heq]
    rfl
  · -- document only in the keyword set
    intro k hk hktid hnos
    have hnotin : k.transcriptId ∉ (semOut.results.map (seedEntry semanticWeight)).map
        CombinedEntry.transcriptId := by
      intro hc
      rw [List.map_map] at hc
      obtain ⟨s, hs, htid⟩ := List.mem_map.mp hc
      have htid2 : s.transcriptId = k.transcriptId := htid
      exact hnos s hs (htid2.trans hktid)
    have hnew := fuseFold_new keywordWeight
      (keyword_search kwRows query userId (lim * 2) 1 log1).1.results _ k hk hnotin
      hkwResNodup
    have htid : e.transcriptId = ((⟨k.transcriptId, k.meta, none, none, some k.rankScore,
        some k.snippet, 0, k.rankScore, k.rankScore * keywordWeight⟩ :
        CombinedEntry)).transcriptId := hktid.symm
    have heq := mem_unique_of_nodup_tids hfusedNodup heFused hnew htid
    rw [heq]

unseal Rat.mul Rat.add in
theorem c1_combined_scores_witness :
    (∀ s ∈ semOutW.results, s.transcriptId = eW.transcriptId →
      ∀ k ∈ (keyword_search [w7] ['q'] 1 (5 * 2) 1 log1W).1.results,
        k.transcriptId = eW.transcriptId →
        eW.combinedScore = s.maxSimilarity * 1 + k.rankScore * 1) ∧
    (∀ s ∈ semOutW.results, s.transcriptId = eW.transcriptId →
      (∀ k ∈ (keyword_search [w7] ['q'] 1 (5 * 2) 1 log1W).1.results,
        k.transcriptId ≠ eW.transcriptId) →
      eW.combinedScore = s.maxSimilarity * 1) ∧
    (∀ k ∈ (keyword_search [w7] ['q'] 1 (5 * 2) 1 log1W).1.results,
      k.transcriptId = eW.transcriptId →
      (∀ s ∈ semOutW.results, s.transcriptId ≠ eW.transcriptId) →
      eW.combinedScore = k.rankScore * 1) :=
  c1_combined_scores okBackend [r7] [w7] ['q'] 1 5 1 1 [] outW logW semOutW log1W
    (by decide) (by decide) (by decide) eW (by decide)

end Ceo
